import Mathlib

/-!
# Verification of the pubmed-papers extraction and classification pipeline

Shallow embedding of the record-extraction, affiliation-classification,
filtering and export logic of the `pubmed_papers` package
(`fetcher.py`, `parser.py`, `utils.py`), together with theorems checking
the design specification's claims against it.

Python strings are modelled as Lean `String`, Python lists as `List`,
optional dictionary keys as `Option`, and functions that may raise as
functions into `Option` (the caught-exception path).
-/

set_option autoImplicit false

namespace PubmedPapers

/-! ## String helpers (Python primitives used by the source) -/

/-- Embeds Python's substring test `needle in hay` on lists of characters:
true iff `needle` occurs contiguously in the list. -/
def containsChars (needle : List Char) : List Char → Bool
  | [] => needle.isEmpty
  | c :: cs => List.isPrefixOf needle (c :: cs) || containsChars needle cs

/-- Python `needle in hay` for strings (substring containment). -/
def strContains (hay needle : String) : Bool :=
  containsChars needle.data hay.data

/-- ASCII lower-casing of one character, as in Python `str.lower()`
restricted to ASCII (all keywords and examples are ASCII). -/
def charLower (c : Char) : Char :=
  if 'A' ≤ c ∧ c ≤ 'Z' then Char.ofNat (c.toNat + 32) else c

/-- Python `s.lower()`. -/
def strLower (s : String) : String :=
  ⟨s.data.map charLower⟩

/-- Python `s.split(',')[0]`: the text before the first comma
(the whole string when there is no comma). -/
def beforeFirstComma (s : String) : String :=
  ⟨s.data.takeWhile (fun c => c ≠ ',')⟩

/-- Python `s.strip()`: remove whitespace from both ends. -/
def strTrim (s : String) : String :=
  ⟨((s.data.dropWhile Char.isWhitespace).reverse.dropWhile
      Char.isWhitespace).reverse⟩

/-- Python `str.split()` on a character list: split on runs of whitespace,
discarding empty tokens.  `acc` holds the current token reversed. -/
def splitWsAux : List Char → List Char → List (List Char)
  | [], acc => if acc.isEmpty then [] else [acc.reverse]
  | c :: cs, acc =>
    if c.isWhitespace then
      if acc.isEmpty then splitWsAux cs [] else acc.reverse :: splitWsAux cs []
    else
      splitWsAux cs (c :: acc)

/-- Python `s.split()` (no argument): whitespace-separated tokens. -/
def splitWs (s : String) : List String :=
  (splitWsAux s.data []).map fun cs => ⟨cs⟩

/-- The punctuation characters stripped from an email token,
Python `part.strip(".,;()")`. -/
def emailStripSet : List Char := ['.', ',', ';', '(', ')']

/-- Python `s.strip(".,;()")`: remove the given characters from both ends. -/
def stripPunct (s : String) : String :=
  ⟨((s.data.dropWhile (emailStripSet.contains ·)).reverse.dropWhile
      (emailStripSet.contains ·)).reverse⟩

/-- Python `s.zfill(width)`: left-pad with '0' to `width`, keeping a
leading sign character in front of the padding. -/
def zfill (width : Nat) (s : String) : String :=
  match s.data with
  | [] => ⟨List.replicate width '0'⟩
  | c :: rest =>
    if c = '+' ∨ c = '-' then
      ⟨c :: List.replicate (width - (rest.length + 1)) '0' ++ rest⟩
    else
      ⟨List.replicate (width - s.data.length) '0' ++ s.data⟩

/-! ## Keyword lists

`academic_keywords` and `company_keywords` are the lists hard-coded inside
`PubMedFetcher._find_non_academic_authors` (fetcher.py).
`get_company_keywords` and `get_academic_keywords` are the separate lists
defined in utils.py. -/

/-- fetcher.py: the academic keyword list used by the classifier. -/
def academic_keywords : List String :=
  ["university", "college", "institute", "school", "academy",
   "hospital", "clinic", "medical center", "centre", "laboratory",
   "national", "federal", "ministry"]

/-- fetcher.py: the company keyword list used by the classifier. -/
def company_keywords : List String :=
  ["pharm", "bio", "therapeutics", "medicines", "drugs", "health",
   "medical", "life sciences", "biotech", "inc", "corp", "llc", "ltd", "gmbh"]

/-- utils.py `get_company_keywords()`. -/
def get_company_keywords : List String :=
  ["pharm", "therapeutics", "biotech", "biopharma", "drug", "medicines",
   "inc", "corp", "llc", "ltd", "gmbh", "co.", "company", "laboratories",
   "labs", "health", "medical", "life sciences", "diagnostics", "genomics",
   "biosciences", "technologies", "biologics", "pharmaceuticals"]

/-- utils.py `get_academic_keywords()`. -/
def get_academic_keywords : List String :=
  ["university", "college", "institute", "school", "faculty",
   "academy", "hospital", "clinic", "medical center", "laboratory",
   "national", "federal", "ministry", "department", "government",
   "research center", "foundation", "association"]

/-! ## Data model -/

/-- An extracted author (fetcher.py `_extract_authors` output entries). -/
structure Author where
  name : String
  affiliations : List String
  email : String
  deriving DecidableEq, Repr

/-- Result triple of `_find_non_academic_authors`. -/
structure FindResult where
  non_academic_authors : List String
  company_affiliations : List String
  corresponding_email : String
  deriving DecidableEq, Repr

/-! ## Affiliation classifier (`_find_non_academic_authors`, fetcher.py) -/

/-- The inner loop of `_find_non_academic_authors`, per author: scan the
affiliation strings in order; an affiliation containing an academic keyword
(case-insensitive substring) is skipped; otherwise the first affiliation
containing a company keyword stops the scan, marking the author
non-academic with company name = text before the first comma of the
original string, trimmed of whitespace. -/
def classifyAffiliations : List String → Bool × String
  | [] => (false, "")
  | aff :: rest =>
    let affLower := strLower aff
    if academic_keywords.any (fun k => strContains affLower k) then
      classifyAffiliations rest
    else if company_keywords.any (fun k => strContains affLower k) then
      (true, strTrim (beforeFirstComma aff))
    else
      classifyAffiliations rest

/-- The author loop of `_find_non_academic_authors`, with the three
accumulators of the source (`non_academic_authors`, `company_affiliations`,
`corresponding_email`) passed explicitly. -/
def findNonAcademicAux : List Author → List String → List String → String → FindResult
  | [], nonAcad, comps, email => ⟨nonAcad, comps, email⟩
  | a :: rest, nonAcad, comps, email =>
    let r := classifyAffiliations a.affiliations
    let nonAcad2 := if r.1 then nonAcad ++ [a.name] else nonAcad
    let comps2 :=
      if r.1 then
        if r.2 ≠ "" ∧ r.2 ∉ comps then comps ++ [r.2] else comps
      else comps
    let email2 := if a.email ≠ "" ∧ email = "" then a.email else email
    findNonAcademicAux rest nonAcad2 comps2 email2

/-- fetcher.py `PubMedFetcher._find_non_academic_authors`. -/
def find_non_academic_authors (authors : List Author) : FindResult :=
  findNonAcademicAux authors [] [] ""

/-! ## Author extraction (`_extract_authors`, fetcher.py) -/

/-- A raw author sub-record: each PubMed XML key modelled as optional.
`affiliationInfo` models the optional `AffiliationInfo` list, whose
entries each optionally carry an `Affiliation` string. -/
structure RawAuthor where
  lastName : Option String
  foreName : Option String
  initials : Option String
  collectiveName : Option String
  affiliationInfo : Option (List (Option String))
  deriving DecidableEq, Repr

/-- The email loop of `_extract_authors`: for each affiliation containing
an `@`, split on whitespace and overwrite `email` with every
punctuation-stripped token containing `@` (the source has no break, so
the last match survives). -/
def extractEmail (affiliations : List String) : String :=
  affiliations.foldl
    (fun email aff =>
      if strContains aff "@" then
        (splitWs aff).foldl
          (fun e part => if strContains part "@" then stripPunct part else e)
          email
      else email)
    ""

/-- The name assembly of `_extract_authors` for a non-skipped raw author:
with a last name, prepend `ForeName` (preferred) or `Initials`; otherwise
use the collective name (sentinel "Unknown Author" when absent). -/
def rawAuthorName (a : RawAuthor) : String :=
  match a.lastName with
  | some ln =>
    match a.foreName with
    | some fn => fn ++ " " ++ ln
    | none =>
      match a.initials with
      | some ini => ini ++ " " ++ ln
      | none => ln
  | none => a.collectiveName.getD "Unknown Author"

/-- The affiliation collection of `_extract_authors`: all present
`Affiliation` strings of the author's `AffiliationInfo` entries, in order. -/
def rawAuthorAffiliations (a : RawAuthor) : List String :=
  (a.affiliationInfo.getD []).filterMap id

/-- fetcher.py `PubMedFetcher._extract_authors` applied to an article's
optional `AuthorList`: a raw author with neither a last name nor a
collective name is skipped; the others become `Author` entries. -/
def extract_authors (authorList : Option (List RawAuthor)) : List Author :=
  match authorList with
  | none => []
  | some authors =>
    authors.filterMap fun a =>
      if a.lastName = none ∧ a.collectiveName = none then none
      else
        let affs := rawAuthorAffiliations a
        some ⟨rawAuthorName a, affs, extractEmail affs⟩

/-! ## Date formatting (`_format_pub_date`, fetcher.py) -/

/-- A raw `PubDate` sub-structure: each key modelled as optional. -/
structure PubDate where
  year : Option String
  month : Option String
  day : Option String
  medlineDate : Option String
  deriving DecidableEq, Repr

/-- The fixed month-name table of `_format_pub_date`. -/
def month_map : List (String × String) :=
  [("Jan", "01"), ("Feb", "02"), ("Mar", "03"), ("Apr", "04"),
   ("May", "05"), ("Jun", "06"), ("Jul", "07"), ("Aug", "08"),
   ("Sep", "09"), ("Oct", "10"), ("Nov", "11"), ("Dec", "12")]

/-- fetcher.py `PubMedFetcher._format_pub_date` (month and day values
modelled as strings, the only case the XML reader produces). -/
def format_pub_date (info : PubDate) : String :=
  match info.year with
  | some year =>
    let month0 := info.month.getD "01"
    let day := info.day.getD "01"
    let month1 :=
      match List.lookup month0 month_map with
      | some v => v
      | none => month0
    year ++ "-" ++ zfill 2 month1 ++ "-" ++ zfill 2 day
  | none =>
    match info.medlineDate with
    | some md => md
    | none => "Unknown"

/-! ## Record assembly (`_extract_paper_info` and the `fetch_details`
processing loop, fetcher.py) -/

/-- The `Article` sub-record: `journalPubDate` stands for the nested
access `article["Journal"]["JournalIssue"]["PubDate"]`, `none` when any
of those keys is missing (the source's caught `KeyError`). -/
structure RawArticle where
  articleTitle : Option String
  journalPubDate : Option PubDate
  authorList : Option (List RawAuthor)
  deriving DecidableEq, Repr

/-- The `MedlineCitation` sub-record. -/
structure MedlineCitation where
  pmid : Option String
  article : Option RawArticle
  deriving DecidableEq, Repr

/-- One raw record of the `PubmedArticle` list. -/
structure PubmedPaper where
  medlineCitation : Option MedlineCitation
  deriving DecidableEq, Repr

/-- The flat output row built by `_extract_paper_info`, with the
multi-valued fields already joined by "; " as in the source. -/
structure PaperRow where
  pubmedID : String
  title : String
  publicationDate : String
  nonAcademicAuthors : String
  companyAffiliations : String
  correspondingEmail : String
  deriving DecidableEq, Repr

/-- fetcher.py `PubMedFetcher._extract_paper_info`: any missing required
key (`MedlineCitation`, `Article`, `PMID`, `ArticleTitle`) raises a
`KeyError` that the surrounding `except` turns into `None`, modelled as
`none`; a missing publication date falls back to "Unknown". -/
def extract_paper_info (paper : PubmedPaper) : Option PaperRow :=
  match paper.medlineCitation with
  | none => none
  | some mc =>
    match mc.article with
    | none => none
    | some article =>
      match mc.pmid with
      | none => none
      | some pmid =>
        match article.articleTitle with
        | none => none
        | some title =>
          let pubDate :=
            match article.journalPubDate with
            | some pd => format_pub_date pd
            | none => "Unknown"
          let authors := extract_authors article.authorList
          let r := find_non_academic_authors authors
          some
            { pubmedID := pmid
              title := title
              publicationDate := pubDate
              nonAcademicAuthors := String.intercalate "; " r.non_academic_authors
              companyAffiliations := String.intercalate "; " r.company_affiliations
              correspondingEmail := r.corresponding_email }

/-- The per-batch record loop of `fetch_details` (fetcher.py lines
141-144): extract each record, keep the rows that come back. -/
def process_papers (records : List PubmedPaper) : List PaperRow :=
  records.filterMap extract_paper_info

/-! ## Filtering and export (parser.py) -/

/-- parser.py `PaperDataParser.filter_papers_with_company_authors`:
keep the rows where both fields are truthy (non-empty strings). -/
def filter_papers_with_company_authors (papers : List PaperRow) : List PaperRow :=
  papers.filter fun p =>
    !p.nonAcademicAuthors.isEmpty && !p.companyAffiliations.isEmpty

/-- The fixed CSV column headers of `export_to_csv`. -/
def csvColumns : List String :=
  ["PubmedID", "Title", "Publication Date", "Non-academic Author(s)",
   "Company Affiliation(s)", "Corresponding Author Email"]

/-- The row fields in CSV column order. -/
def rowFields (p : PaperRow) : List String :=
  [p.pubmedID, p.title, p.publicationDate, p.nonAcademicAuthors,
   p.companyAffiliations, p.correspondingEmail]

/-- CSV quoting with `QUOTE_NONNUMERIC`: every (string) value is wrapped
in double quotes, inner double quotes doubled. -/
def csvQuote (s : String) : String :=
  "\"" ++ ⟨s.data.flatMap fun c => if c = '"' then ['"', '"'] else [c]⟩ ++ "\""

/-- The CSV text produced for a non-empty row list: quoted header line
followed by one quoted line per row. -/
def csvRender (papers : List PaperRow) : String :=
  String.intercalate "\n"
    ((String.intercalate "," (csvColumns.map csvQuote)) ::
      papers.map fun p => String.intercalate "," ((rowFields p).map csvQuote))
  ++ "\n"

/-- Outcome of `export_to_csv`: the Python return value (`None` or a
string) and the file writes performed (path, content). -/
structure ExportOutcome where
  ret : Option String
  writes : List (String × String)
  deriving DecidableEq, Repr

/-- parser.py `PaperDataParser.export_to_csv`.  `ioFails` models whether
the pandas serialization / file write inside the `try` block raises; the
`except` branch logs and returns `None`.  An empty paper list returns the
empty string before the `try` block, writing nothing. -/
def export_to_csv (papers : List PaperRow) (outputFile : Option String)
    (ioFails : Bool) : ExportOutcome :=
  if papers.isEmpty then ⟨some "", []⟩
  else if ioFails then ⟨none, []⟩
  else
    match outputFile with
    | some f => ⟨none, [(f, csvRender papers)]⟩
    | none => ⟨some (csvRender papers), []⟩

/-- The 80-dash separator rule of `print_results`. -/
def dashRule : String := ⟨List.replicate 80 '-'⟩

/-- The six labelled lines plus trailing rule printed per paper. -/
def paperBlock (i : Nat) (p : PaperRow) : List String :=
  ["Paper " ++ toString i ++ ":",
   "  PubMed ID: " ++ p.pubmedID,
   "  Title: " ++ p.title,
   "  Publication Date: " ++ p.publicationDate,
   "  Non-academic Author(s): " ++ p.nonAcademicAuthors,
   "  Company Affiliation(s): " ++ p.companyAffiliations,
   "  Corresponding Author Email: " ++ p.correspondingEmail,
   dashRule]

/-- parser.py `PaperDataParser.print_results`, as the list of lines
printed to the output stream. -/
def print_results (papers : List PaperRow) : List String :=
  if papers.isEmpty then
    ["No papers found matching the criteria."]
  else
    ("Found " ++ toString papers.length ++
      " papers with pharmaceutical/biotech company authors:") ::
    dashRule ::
    (papers.enum.flatMap fun pi => paperBlock (pi.1 + 1) pi.2)

/-! ## Sample data (mirroring the repository's own test fixtures) -/

/-- A row with both classifier fields populated (test_parser.py paper 1). -/
def sampleRow1 : PaperRow :=
  ⟨"12345", "Test Paper 1", "2022-01-15", "John Doe", "Pharma Inc",
   "john@pharma.com"⟩

/-- A row with both classifier fields empty (test_parser.py paper 2). -/
def sampleRow2 : PaperRow :=
  ⟨"67890", "Test Paper 2", "2022-02-20", "", "", "jane@university.edu"⟩

/-- A second row with both classifier fields populated
(test_parser.py paper 3). -/
def sampleRow3 : PaperRow :=
  ⟨"54321", "Test Paper 3", "2022-03-10", "Bob Smith", "Biotech Corp",
   "bob@biotech.com"⟩

/-- The nine extended company-keyword variants the spec lists beyond the
base set. -/
def extended_company_keywords : List String :=
  ["biopharma", "drug", "labs", "diagnostics", "genomics", "biosciences",
   "technologies", "biologics", "pharmaceuticals"]

/-- The sequence of company names the classifier attaches to the
non-academic authors, in author order: exactly the values the source's
author loop offers to the `company_affiliations` accumulator (non-empty
name of an author classified non-academic). -/
def author_company_names (authors : List Author) : List String :=
  authors.filterMap fun a =>
    let r := classifyAffiliations a.affiliations
    if r.1 = true ∧ r.2 ≠ "" then some r.2 else none

/-- Keep the first occurrence of every string, dropping later duplicates
(order of first appearance). -/
def dedupFirst : List String → List String
  | [] => []
  | x :: xs => x :: dedupFirst (xs.filter fun y => decide (y ≠ x))
termination_by l => l.length
decreasing_by
  exact Nat.lt_succ_of_le (List.length_filter_le _ _)

/-- The accumulator discipline of the source's company list: append each
value unless already present. -/
def insertNewFold (acc : List String) (l : List String) : List String :=
  l.foldl (fun acc c => if c ∈ acc then acc else acc ++ [c]) acc

/-- A well-formed sample record (mirroring the fixture of
test_fetcher.py). -/
def samplePaper : PubmedPaper :=
  ⟨some ⟨some "12345",
    some ⟨some "Test Article",
      some ⟨some "2022", some "Jan", none, none⟩,
      some [⟨some "Doe", some "John", none, none,
        some [some "Pharma Inc, USA"]⟩]⟩⟩⟩

/-- A malformed record: its `MedlineCitation` lacks the `PMID` key. -/
def noPmidPaper : PubmedPaper :=
  ⟨some ⟨none, some ⟨some "Test Article", none, none⟩⟩⟩

/-! ## Specification-side definitions

Written from the specification's words, to be compared with the
source-side definitions above. -/

/-- Spec side, amended for C2: the author email is the LAST
whitespace-separated token containing '@' across the affiliations, in
scan order, stripped of the punctuation characters, or "" if there is
none. -/
def spec_last_email (affiliations : List String) : String :=
  (((affiliations.flatMap splitWs).filter fun t => strContains t "@").map
    stripPunct).getLastD ""

/-- Spec side: the fixed table mapping three-letter month abbreviations
"Jan".."Dec" to two-digit numeric codes. -/
def specMonthCode : String → Option String
  | "Jan" => some "01"
  | "Feb" => some "02"
  | "Mar" => some "03"
  | "Apr" => some "04"
  | "May" => some "05"
  | "Jun" => some "06"
  | "Jul" => some "07"
  | "Aug" => some "08"
  | "Sep" => some "09"
  | "Oct" => some "10"
  | "Nov" => some "11"
  | "Dec" => some "12"
  | _ => none

/-- Spec side: zero-pad to two digits. -/
def pad2 (s : String) : String :=
  if s.length < 2 then ⟨List.replicate (2 - s.length) '0' ++ s.data⟩ else s

/-- Well-formedness of a month/day value: it does not begin with a sign
character (Python `zfill` relocates a leading sign; no well-formed date
field carries one). -/
def noSign (s : String) : Bool :=
  match s.data with
  | [] => true
  | c :: _ => !(c = '+' || c = '-')

/-- Spec side (§4.2): with a year, emit "YYYY-MM-DD" with month names
mapped through the fixed table and month/day defaulted to "01" and
zero-padded; with no year but a MedlineDate, return it verbatim;
otherwise "Unknown". -/
def spec_format_date (d : PubDate) : String :=
  match d.year with
  | some y =>
    let m := d.month.getD "01"
    let mc := (specMonthCode m).getD m
    y ++ "-" ++ pad2 mc ++ "-" ++ pad2 (d.day.getD "01")
  | none =>
    match d.medlineDate with
    | some md => md
    | none => "Unknown"

/-! ## Claims -/

/-- The month-name table of the source equals the spec-side mapping. -/
theorem month_lookup_eq (m : String) :
    List.lookup m month_map = specMonthCode m := by
  unfold month_map specMonthCode
  simp only [List.lookup]
  repeat' split
  all_goals simp_all

/-- On sign-free strings, Python `zfill 2` is plain zero-padding. -/
theorem zfill_two_eq_pad2 (s : String) (h : noSign s = true) :
    zfill 2 s = pad2 s := by
  obtain ⟨data⟩ := s
  match data with
  | [] => rfl
  | c :: cs =>
    simp only [noSign] at h
    have hc : ¬(c = '+' ∨ c = '-') := by
      simp at h
      simp [h]
    match cs with
    | [] =>
      simp only [zfill, pad2, if_neg hc]
      rfl
    | c2 :: cs2 =>
      simp only [zfill, pad2, if_neg hc]
      have hlen : ¬(String.length ⟨c :: c2 :: cs2⟩ < 2) := by
        simp [String.length]
      rw [if_neg hlen]
      simp

/-- The month table only produces sign-free two-digit codes. -/
theorem specMonthCode_noSign (m v : String) (h : specMonthCode m = some v) :
    noSign v = true := by
  revert h
  unfold specMonthCode
  repeat' split
  all_goals intro h
  all_goals first | (cases h; rfl) | cases h

/-- C1: the per-author classifier scans affiliations in order; an
affiliation whose lower-cased text contains an academic keyword is
skipped (the result is that of the remaining affiliations, so it never
marks the author non-academic, even when a company keyword is also
present); otherwise the first affiliation containing a company keyword
yields `(true, company_name)` with `company_name` the text before the
first comma of the original string trimmed of whitespace, and the result
does not depend on the affiliations after it.  In particular
"University Hospital, in partnership with Pharma Inc" is academic and
"Pharma Inc, USA" gives `(true, "Pharma Inc")`, also at author level. -/
theorem claim_C1 :
    (∀ aff rest,
      (∃ k ∈ academic_keywords, strContains (strLower aff) k = true) →
      classifyAffiliations (aff :: rest) = classifyAffiliations rest)
  ∧ (∀ aff rest,
      (∀ k ∈ academic_keywords, strContains (strLower aff) k = false) →
      (∃ k ∈ company_keywords, strContains (strLower aff) k = true) →
      classifyAffiliations (aff :: rest) =
        (true, strTrim (beforeFirstComma aff)))
  ∧ classifyAffiliations
      ["University Hospital, in partnership with Pharma Inc"] = (false, "")
  ∧ classifyAffiliations ["Pharma Inc, USA"] = (true, "Pharma Inc")
  ∧ find_non_academic_authors [⟨"John Doe", ["Pharma Inc, USA"], ""⟩] =
      ⟨["John Doe"], ["Pharma Inc"], ""⟩ := by
  refine ⟨?_, ?_, by decide, by decide, by decide⟩
  · intro aff rest h
    have hA : (academic_keywords.any fun k => strContains (strLower aff) k)
        = true := List.any_eq_true.mpr h
    simp [classifyAffiliations, hA]
  · intro aff rest hnone h
    have hA : (academic_keywords.any fun k => strContains (strLower aff) k)
        = false := by
      apply List.any_eq_false.mpr
      intro k hk
      simp [hnone k hk]
    have hC : (company_keywords.any fun k => strContains (strLower aff) k)
        = true := List.any_eq_true.mpr h
    simp [classifyAffiliations, hA, hC]

/-- Witness for C1: the two conditional parts applied at concrete
affiliations, hypotheses discharged by computation. -/
theorem claim_C1_witness :
    classifyAffiliations
        ("University Hospital, in partnership with Pharma Inc" ::
          ["Sunshine Biotech LLC"]) =
      classifyAffiliations ["Sunshine Biotech LLC"]
  ∧ classifyAffiliations ["Pharma Inc, USA"] =
      (true, strTrim (beforeFirstComma "Pharma Inc, USA")) :=
  ⟨claim_C1.1 "University Hospital, in partnership with Pharma Inc"
      ["Sunshine Biotech LLC"] (by decide),
   claim_C1.2.1 "Pharma Inc, USA" [] (by decide) (by decide)⟩

/-- C3 counterexample: "genomics" is not in the classifier's own
company-keyword list, and "Acme Genomics, USA" (which contains no
academic keyword, and would match the extended list of
`get_company_keywords`) is NOT marked non-academic, contradicting the
claim that the classifier's set includes the extended variants. -/
theorem claim_C3_counterexample :
    "genomics" ∉ company_keywords
  ∧ classifyAffiliations ["Acme Genomics, USA"] = (false, "")
  ∧ (∃ k ∈ get_company_keywords,
      strContains (strLower "Acme Genomics, USA") k = true) := by
  decide

/-- C3 amended: the extended variants (biopharma, drug, labs,
diagnostics, genomics, biosciences, technologies, biologics,
pharmaceuticals) belong to `get_company_keywords` (utils.py) but not to
the `company_keywords` list hard-coded in the classifier (fetcher.py),
which the classifier alone uses; consequently an author whose only
affiliation is "Acme Genomics, USA" is classified academic. -/
theorem claim_C3 :
    (∀ k ∈ extended_company_keywords,
      k ∈ get_company_keywords ∧ k ∉ company_keywords)
  ∧ classifyAffiliations ["Acme Genomics, USA"] = (false, "")
  ∧ find_non_academic_authors [⟨"Ann Author", ["Acme Genomics, USA"], ""⟩] =
      ⟨[], [], ""⟩ := by
  decide

/-- Witness for C3: the quantified part applied at the concrete keyword
"genomics". -/
theorem claim_C3_witness :
    "genomics" ∈ get_company_keywords ∧ "genomics" ∉ company_keywords :=
  claim_C3.1 "genomics" (by decide)

/-- C4: the filter retains exactly the rows whose non-academic-authors
and company-affiliations fields are both non-empty, as a sublist (hence
preserving relative order); on the three sample rows it returns rows 1
and 3 in that order. -/
theorem claim_C4 :
    (∀ rows, (filter_papers_with_company_authors rows).Sublist rows)
  ∧ (∀ rows r, r ∈ filter_papers_with_company_authors rows ↔
      r ∈ rows ∧ r.nonAcademicAuthors ≠ "" ∧ r.companyAffiliations ≠ "")
  ∧ filter_papers_with_company_authors [sampleRow1, sampleRow2, sampleRow3]
      = [sampleRow1, sampleRow3] := by
  refine ⟨?_, ?_, by decide⟩
  · intro rows
    exact List.filter_sublist rows
  · intro rows r
    simp [filter_papers_with_company_authors, List.mem_filter,
      Bool.eq_false_iff, String.isEmpty_iff, and_assoc]

/-- C5: the date formatter is total and agrees with the spec's
description on every well-formed date structure (month/day values not
beginning with a sign character): with a year, "YYYY-MM-DD" with the
month-abbreviation table, "01" defaults and two-digit zero-padding; with
no year but a MedlineDate, that string verbatim; otherwise "Unknown".
The spec's four examples evaluate as stated. -/
theorem claim_C5 :
    (∀ info : PubDate,
      noSign (info.month.getD "01") = true →
      noSign (info.day.getD "01") = true →
      format_pub_date info = spec_format_date info)
  ∧ format_pub_date ⟨some "2022", some "Jan", some "15", none⟩ = "2022-01-15"
  ∧ format_pub_date ⟨some "2022", none, none, none⟩ = "2022-01-01"
  ∧ format_pub_date ⟨none, none, none, some "2022 Jan-Feb"⟩ = "2022 Jan-Feb"
  ∧ format_pub_date ⟨none, none, none, none⟩ = "Unknown" := by
  refine ⟨?_, by decide, by decide, by decide, by decide⟩
  intro info hm hd
  cases hy : info.year with
  | none => simp [format_pub_date, spec_format_date, hy]
  | some y =>
    simp only [format_pub_date, spec_format_date, hy]
    rw [month_lookup_eq]
    cases hmc : specMonthCode (info.month.getD "01") with
    | none =>
      simp only [hmc, Option.getD_none]
      rw [zfill_two_eq_pad2 _ hm, zfill_two_eq_pad2 _ hd]
    | some v =>
      have hv : noSign v = true := specMonthCode_noSign _ _ hmc
      simp only [hmc, Option.getD_some]
      rw [zfill_two_eq_pad2 _ hv, zfill_two_eq_pad2 _ hd]

/-- Witness for C5: the refinement applied at a concrete date. -/
theorem claim_C5_witness :
    format_pub_date ⟨some "2022", some "Jan", some "15", none⟩ =
      spec_format_date ⟨some "2022", some "Jan", some "15", none⟩ :=
  claim_C5.1 ⟨some "2022", some "Jan", some "15", none⟩ (by decide) (by decide)

/-- Unfolding `author_company_names` over the head author. -/
theorem author_company_names_cons (a : Author) (rest : List Author) :
    author_company_names (a :: rest) =
      if (classifyAffiliations a.affiliations).1 = true ∧
          (classifyAffiliations a.affiliations).2 ≠ "" then
        (classifyAffiliations a.affiliations).2 :: author_company_names rest
      else author_company_names rest := by
  by_cases h : (classifyAffiliations a.affiliations).1 = true ∧
      (classifyAffiliations a.affiliations).2 ≠ ""
  · simp only [author_company_names, List.filterMap_cons, if_pos h]
  · simp only [author_company_names, List.filterMap_cons, if_neg h]

/-- Unfolding `insertNewFold` over the head value. -/
theorem insertNewFold_cons (acc : List String) (c : String) (l : List String) :
    insertNewFold acc (c :: l) =
      insertNewFold (if c ∈ acc then acc else acc ++ [c]) l := rfl

/-- The author loop builds `company_affiliations` by folding the
append-if-new step over the company names, starting from the
accumulator. -/
theorem findAux_company (authors : List Author)
    (na comps : List String) (em : String) :
    (findNonAcademicAux authors na comps em).company_affiliations =
      insertNewFold comps (author_company_names authors) := by
  induction authors generalizing na comps em with
  | nil => rfl
  | cons a rest ih =>
    rw [author_company_names_cons]
    simp only [findNonAcademicAux]
    by_cases h1 : (classifyAffiliations a.affiliations).1 = true
    · by_cases h2 : (classifyAffiliations a.affiliations).2 ≠ ""
      · by_cases h3 : (classifyAffiliations a.affiliations).2 ∈ comps
        · have hneg : ¬((classifyAffiliations a.affiliations).2 ≠ "" ∧
              (classifyAffiliations a.affiliations).2 ∉ comps) :=
            fun hc => hc.2 h3
          simp only [if_pos h1, if_pos (And.intro h1 h2), if_neg hneg, ih,
            insertNewFold_cons, if_pos h3]
        · simp only [if_pos h1, if_pos (And.intro h1 h2),
            if_pos (And.intro h2 h3), ih, insertNewFold_cons, if_neg h3]
      · have hneg1 : ¬((classifyAffiliations a.affiliations).1 = true ∧
            (classifyAffiliations a.affiliations).2 ≠ "") :=
          fun hc => h2 hc.2
        have hneg2 : ¬((classifyAffiliations a.affiliations).2 ≠ "" ∧
            (classifyAffiliations a.affiliations).2 ∉ comps) :=
          fun hc => h2 hc.1
        simp only [if_pos h1, if_neg hneg1, if_neg hneg2, ih]
    · have hneg1 : ¬((classifyAffiliations a.affiliations).1 = true ∧
          (classifyAffiliations a.affiliations).2 ≠ "") :=
        fun hc => h1 hc.1
      simp only [if_neg h1, if_neg hneg1, ih]

/-- The append-if-new fold is first-occurrence deduplication of the
values not already in the accumulator. -/
theorem insertNewFold_eq_dedupFirst (l : List String) :
    ∀ acc, insertNewFold acc l =
      acc ++ dedupFirst (l.filter fun c => decide (c ∉ acc)) := by
  induction l with
  | nil =>
    intro acc
    simp [insertNewFold, dedupFirst]
  | cons c l ih =>
    intro acc
    by_cases hc : c ∈ acc
    · rw [insertNewFold_cons, if_pos hc, List.filter_cons,
        if_neg (by simp [hc])]
      exact ih acc
    · rw [insertNewFold_cons, if_neg hc, List.filter_cons,
        if_pos (by simp [hc])]
      rw [ih (acc ++ [c]), dedupFirst]
      have hpred : ∀ x ∈ l,
          decide (x ∉ acc ++ [c]) = (decide (x ≠ c) && decide (x ∉ acc)) := by
        intro x _
        by_cases hx1 : x ∈ acc <;> by_cases hx2 : x = c <;>
          simp [hx1, hx2]
      rw [List.filter_congr hpred]
      rw [← List.filter_filter]
      simp

/-- Every element of `dedupFirst l` comes from `l` (by strong induction
on length, which bounds the filtered recursive call). -/
theorem dedupFirst_mem_bound (n : Nat) :
    ∀ l : List String, l.length ≤ n → ∀ a ∈ dedupFirst l, a ∈ l := by
  induction n with
  | zero =>
    intro l hl a ha
    match l with
    | [] => simp [dedupFirst] at ha
    | x :: xs => simp at hl
  | succ n ih =>
    intro l hl a ha
    match l with
    | [] => simp [dedupFirst] at ha
    | x :: xs =>
      rw [dedupFirst] at ha
      rcases List.mem_cons.mp ha with h | h
      · exact h ▸ List.mem_cons_self x xs
      · have hlen : (xs.filter fun y => decide (y ≠ x)).length ≤ n :=
          le_trans (List.length_filter_le _ _) (Nat.le_of_succ_le_succ hl)
        exact List.mem_cons_of_mem _
          (List.mem_of_mem_filter (ih _ hlen a h))

/-- Membership form of `dedupFirst_mem_bound`. -/
theorem mem_dedupFirst {a : String} {l : List String}
    (h : a ∈ dedupFirst l) : a ∈ l :=
  dedupFirst_mem_bound l.length l le_rfl a h

/-- `dedupFirst` produces no duplicates. -/
theorem dedupFirst_nodup_bound (n : Nat) :
    ∀ l : List String, l.length ≤ n → (dedupFirst l).Nodup := by
  induction n with
  | zero =>
    intro l hl
    match l with
    | [] => simp [dedupFirst]
    | x :: xs => simp at hl
  | succ n ih =>
    intro l hl
    match l with
    | [] => simp [dedupFirst]
    | x :: xs =>
      rw [dedupFirst]
      refine List.nodup_cons.mpr ⟨?_, ih _
        (le_trans (List.length_filter_le _ _) (Nat.le_of_succ_le_succ hl))⟩
      intro hx
      have := List.mem_filter.mp (mem_dedupFirst hx)
      simp at this

/-- `dedupFirst` produces no duplicates (unbounded form). -/
theorem dedupFirst_nodup (l : List String) : (dedupFirst l).Nodup :=
  dedupFirst_nodup_bound l.length l le_rfl

/-- C6: for every author list, the assembled `company_affiliations` list
is exactly the first-occurrence deduplication of the non-empty company
names of the authors classified non-academic (hence in order of first
appearance), contains no duplicate entry — so its "; "-joined serialized
form lists no entry twice — and contains only non-empty names.  On two
authors sharing the company "Pharma Inc" it lists the name once. -/
theorem claim_C6 :
    (∀ authors : List Author,
      (find_non_academic_authors authors).company_affiliations =
        dedupFirst (author_company_names authors)
      ∧ (find_non_academic_authors authors).company_affiliations.Nodup
      ∧ (∀ s ∈ (find_non_academic_authors authors).company_affiliations,
          s ≠ ""))
  ∧ find_non_academic_authors
      [⟨"Alice A", ["Pharma Inc, USA"], ""⟩,
       ⟨"Bob B", ["Pharma Inc, Germany"], ""⟩] =
      ⟨["Alice A", "Bob B"], ["Pharma Inc"], ""⟩ := by
  refine ⟨fun authors => ?_, by decide⟩
  have h1 : (find_non_academic_authors authors).company_affiliations =
      dedupFirst (author_company_names authors) := by
    rw [show find_non_academic_authors authors =
        findNonAcademicAux authors [] [] "" from rfl]
    rw [findAux_company, insertNewFold_eq_dedupFirst]
    simp
  refine ⟨h1, h1 ▸ dedupFirst_nodup _, ?_⟩
  intro s hs
  rw [h1] at hs
  have hmem := mem_dedupFirst hs
  simp only [author_company_names, List.mem_filterMap] at hmem
  obtain ⟨a, _, ha⟩ := hmem
  by_cases hc : (classifyAffiliations a.affiliations).1 = true ∧
      (classifyAffiliations a.affiliations).2 ≠ ""
  · rw [if_pos hc] at ha
    cases ha
    exact hc.2
  · rw [if_neg hc] at ha
    cases ha

/-- One-character substring containment is list membership. -/
theorem containsChars_single (l : List Char) (c : Char) :
    containsChars [c] l = true ↔ c ∈ l := by
  induction l with
  | nil => simp [containsChars]
  | cons d ds ih =>
    simp [containsChars, List.isPrefixOf, ih]

/-- Every character of every whitespace-split token comes from the input
characters or from the pending-token accumulator. -/
theorem splitWsAux_chars (cs : List Char) :
    ∀ (acc : List Char) (t : List Char), t ∈ splitWsAux cs acc →
      ∀ c ∈ t, c ∈ cs ∨ c ∈ acc := by
  induction cs with
  | nil =>
    intro acc t ht c hc
    by_cases ha : acc.isEmpty
    · simp [splitWsAux, ha] at ht
    · simp only [splitWsAux, if_neg ha, List.mem_singleton] at ht
      subst ht
      exact Or.inr (List.mem_reverse.mp hc)
  | cons c0 cs ih =>
    intro acc t ht c hc
    by_cases hw : c0.isWhitespace
    · by_cases ha : acc.isEmpty
      · simp only [splitWsAux, if_pos hw, if_pos ha] at ht
        rcases ih [] t ht c hc with h | h
        · exact Or.inl (List.mem_cons_of_mem _ h)
        · simp at h
      · simp only [splitWsAux, if_pos hw, if_neg ha, List.mem_cons] at ht
        rcases ht with ht | ht
        · subst ht
          exact Or.inr (List.mem_reverse.mp hc)
        · rcases ih [] t ht c hc with h | h
          · exact Or.inl (List.mem_cons_of_mem _ h)
          · simp at h
    · simp only [splitWsAux, if_neg hw] at ht
      rcases ih (c0 :: acc) t ht c hc with h | h
      · exact Or.inl (List.mem_cons_of_mem _ h)
      · rcases List.mem_cons.mp h with h | h
        · exact Or.inl (h ▸ List.mem_cons_self _ _)
        · exact Or.inr h

/-- A whitespace token of an affiliation without '@' has no '@'. -/
theorem splitWs_no_at (aff : String) (h : strContains aff "@" = false) :
    ∀ part ∈ splitWs aff, strContains part "@" = false := by
  intro part hp
  by_contra hcon
  rw [Bool.not_eq_false] at hcon
  have hat : '@' ∈ part.data := by
    have : containsChars ['@'] part.data = true := hcon
    exact (containsChars_single _ _).mp this
  obtain ⟨t, ht, hteq⟩ := List.mem_map.mp hp
  have hdata : part.data = t := by
    rw [← hteq]
  rcases splitWsAux_chars aff.data [] t ht '@' (hdata ▸ hat) with hh | hh
  · have : containsChars ['@'] aff.data = true :=
      (containsChars_single _ _).mpr hh
    rw [show containsChars ['@'] aff.data = strContains aff "@" from rfl]
      at this
    rw [h] at this
    cases this
  · simp at hh

/-- `getLastD` over an append chains the defaults. -/
theorem getLastD_append (l1 l2 : List String) (d : String) :
    (l1 ++ l2).getLastD d = l2.getLastD (l1.getLastD d) := by
  induction l1 generalizing d with
  | nil => rfl
  | cons a l1 ih =>
    rw [List.cons_append, List.getLastD_cons, List.getLastD_cons, ih]

/-- The per-affiliation token loop keeps the stripped LAST '@' token,
defaulting to the incoming accumulator. -/
theorem email_inner_fold (parts : List String) :
    ∀ e : String,
      parts.foldl
        (fun e part => if strContains part "@" then stripPunct part else e)
        e =
      ((parts.filter fun t => strContains t "@").map stripPunct).getLastD
        e := by
  induction parts with
  | nil => intro e; rfl
  | cons p ps ih =>
    intro e
    cases hp : strContains p "@" with
    | true =>
      rw [List.foldl_cons, if_pos hp, List.filter_cons, if_pos hp,
        List.map_cons, List.getLastD_cons, ih]
    | false =>
      rw [List.foldl_cons, if_neg (by simp [hp]), List.filter_cons,
        if_neg (by simp [hp]), ih]

/-- The affiliation loop keeps the stripped LAST '@' token over all
affiliations. -/
theorem email_outer_fold (affs : List String) :
    ∀ e : String,
      affs.foldl
        (fun email aff =>
          if strContains aff "@" then
            (splitWs aff).foldl
              (fun e part =>
                if strContains part "@" then stripPunct part else e)
              email
          else email)
        e =
      (((affs.flatMap splitWs).filter fun t => strContains t "@").map
        stripPunct).getLastD e := by
  induction affs with
  | nil => intro e; rfl
  | cons aff rest ih =>
    intro e
    rw [List.flatMap_cons, List.filter_append, List.map_append,
      getLastD_append, List.foldl_cons]
    cases ha : strContains aff "@" with
    | true =>
      rw [if_pos rfl, email_inner_fold, ih]
    | false =>
      rw [if_neg (by simp)]
      have hnil : (splitWs aff).filter (fun t => strContains t "@") = [] :=
        List.filter_eq_nil_iff.mpr fun part hp => by
          simp [splitWs_no_at aff ha part hp]
      rw [hnil, List.map_nil, List.getLastD_nil, ih]

/-- C2 counterexample: with two '@' tokens in one affiliation, the code
keeps the LAST one (its loop never breaks), not the first as claimed —
also visible in the email field of the extracted author. -/
theorem claim_C2_counterexample :
    extractEmail ["a@x.com b@y.com"] = "b@y.com"
  ∧ "b@y.com" ≠ "a@x.com"
  ∧ (extract_authors (some
      [⟨some "Doe", none, none, none, some [some "a@x.com b@y.com"]⟩])).map
      Author.email = ["b@y.com"] := by
  decide

/-- C2 amended: the extracted email is the LAST whitespace-separated
token containing '@' found while scanning the author's affiliation
strings in order, stripped of the punctuation characters '.', ',', ';',
'(', ')' from both ends (the scan never stops early, so a later match
overwrites an earlier one); if no token contains '@', the email is the
empty string. -/
theorem claim_C2 :
    (∀ affiliations, extractEmail affiliations =
      spec_last_email affiliations)
  ∧ extractEmail ["Dept of X, Nowhere", "write to (jane.roe@biotech.com)."]
      = "jane.roe@biotech.com"
  ∧ extractEmail ["no email here"] = "" := by
  refine ⟨?_, by decide, by decide⟩
  intro affiliations
  unfold extractEmail spec_last_email
  exact email_outer_fold affiliations ""

/-- Appending a non-empty string on the right gives a non-empty string. -/
theorem strApp_ne_empty (s t : String) (ht : t ≠ "") : s ++ t ≠ "" := by
  intro h
  apply ht
  have hd : (s ++ t).data = ([] : List Char) := congrArg String.data h
  rw [String.data_append] at hd
  exact String.ext (List.append_eq_nil.mp hd).2

/-- C7 counterexample: a raw author whose `LastName` key is present but
holds the empty string is not skipped (the source checks key presence,
not emptiness) and yields an `Author` whose name is the empty string,
refuting "every produced Author has a non-empty name" as a universal
statement over raw author lists. -/
theorem claim_C7_counterexample :
    (extract_authors (some [⟨some "", none, none, none, none⟩])).map
      Author.name = [""] := by
  decide

/-- C7 amended: a raw author with neither a last name nor a collective
name is excluded from the result (and extraction is total, so nothing is
raised); and provided no present `LastName` or `CollectiveName` value is
the empty string, every produced `Author` has a non-empty name. -/
theorem claim_C7 :
    (∀ (ra : RawAuthor) (ras : List RawAuthor),
      ra.lastName = none → ra.collectiveName = none →
      extract_authors (some (ra :: ras)) = extract_authors (some ras))
  ∧ (∀ authors : List RawAuthor,
      (∀ ra ∈ authors, ra.lastName ≠ some "" ∧ ra.collectiveName ≠ some "") →
      ∀ a ∈ extract_authors (some authors), a.name ≠ "") := by
  constructor
  · intro ra ras h1 h2
    simp [extract_authors, List.filterMap_cons, h1, h2]
  · intro authors
    induction authors with
    | nil => intro _ a ha; simp [extract_authors] at ha
    | cons ra rest ih =>
      intro hgood a ha
      have hra := hgood ra (List.mem_cons_self _ _)
      have hrest : ∀ x ∈ rest, x.lastName ≠ some "" ∧
          x.collectiveName ≠ some "" :=
        fun x hx => hgood x (List.mem_cons_of_mem _ hx)
      by_cases hskip : ra.lastName = none ∧ ra.collectiveName = none
      · rw [show extract_authors (some (ra :: rest)) =
            extract_authors (some rest) by
          simp [extract_authors, List.filterMap_cons, hskip.1, hskip.2]] at ha
        exact ih hrest a ha
      · simp only [extract_authors, List.filterMap_cons, if_neg hskip] at ha
        rcases List.mem_cons.mp ha with h | h
        · subst h
          show rawAuthorName ra ≠ ""
          unfold rawAuthorName
          cases hln : ra.lastName with
          | some ln =>
            have hlnne : ln ≠ "" := by
              intro he
              exact hra.1 (by rw [hln, he])
            cases hfn : ra.foreName with
            | some fn => exact strApp_ne_empty _ _ hlnne
            | none =>
              cases hini : ra.initials with
              | some ini => exact strApp_ne_empty _ _ hlnne
              | none => exact hlnne
          | none =>
            cases hcn : ra.collectiveName with
            | some cn =>
              have hcnne : cn ≠ "" := by
                intro he
                exact hra.2 (by rw [hcn, he])
              simpa [Option.getD] using hcnne
            | none => exact absurd ⟨hln, hcn⟩ hskip
        · exact ih hrest a h

/-- Witness for C7: a personal-name author and a collective-name author
both yield non-empty names, and a fully unnamed author is dropped. -/
theorem claim_C7_witness :
    (∀ a ∈ extract_authors (some
        [⟨some "Doe", some "John", none, none, none⟩,
         ⟨none, none, none, some "ACME Group", none⟩]), a.name ≠ "")
  ∧ extract_authors (some
        [⟨none, none, none, none, none⟩,
         ⟨some "Doe", some "John", none, none, none⟩]) =
      extract_authors (some [⟨some "Doe", some "John", none, none, none⟩]) :=
  ⟨claim_C7.2
      [⟨some "Doe", some "John", none, none, none⟩,
       ⟨none, none, none, some "ACME Group", none⟩] (by decide),
   claim_C7.1 ⟨none, none, none, none, none⟩
      [⟨some "Doe", some "John", none, none, none⟩] rfl rfl⟩

/-- C8: per-record extraction is total (exceptions are modelled by the
`none` result, so nothing escapes the boundary); a record missing any
required key (`MedlineCitation`, `Article`, `PMID`, `ArticleTitle`)
yields no row; and a record whose extraction yields no row is simply
skipped by the batch loop, leaving the processing of the remaining
records unchanged. -/
theorem claim_C8 :
    (∀ p rest, extract_paper_info p = none →
      process_papers (p :: rest) = process_papers rest)
  ∧ (∀ p : PubmedPaper, p.medlineCitation = none →
      extract_paper_info p = none)
  ∧ (∀ (p : PubmedPaper) mc, p.medlineCitation = some mc →
      mc.article = none → extract_paper_info p = none)
  ∧ (∀ (p : PubmedPaper) mc, p.medlineCitation = some mc →
      mc.pmid = none → extract_paper_info p = none)
  ∧ (∀ (p : PubmedPaper) mc art, p.medlineCitation = some mc →
      mc.article = some art → art.articleTitle = none →
      extract_paper_info p = none) := by
  refine ⟨?_, ?_, ?_, ?_, ?_⟩
  · intro p rest h
    simp [process_papers, List.filterMap_cons, h]
  · intro p h
    simp [extract_paper_info, h]
  · intro p mc h1 h2
    simp [extract_paper_info, h1, h2]
  · intro p mc h1 h2
    cases h3 : mc.article with
    | none => simp [extract_paper_info, h1, h3]
    | some art => simp [extract_paper_info, h1, h2, h3]
  · intro p mc art h1 h2 h3
    cases h4 : mc.pmid with
    | none => simp [extract_paper_info, h1, h2, h4]
    | some pmid => simp [extract_paper_info, h1, h2, h3, h4]

/-- Witness for C8: a record without a `PMID` extracts to no row, and
prepending it to a batch leaves the batch result unchanged. -/
theorem claim_C8_witness :
    extract_paper_info noPmidPaper = none
  ∧ process_papers [noPmidPaper, samplePaper] = process_papers [samplePaper] :=
  ⟨claim_C8.2.2.2.1 noPmidPaper ⟨none, some ⟨some "Test Article", none, none⟩⟩
      rfl rfl,
   claim_C8.1 noPmidPaper [samplePaper] (by decide)⟩

/-- C9: exporting an empty row list yields the empty string and performs
no file write, whatever the output-file argument and whatever the I/O
outcome would have been; console rendering of an empty list prints
exactly the no-papers message. -/
theorem claim_C9 :
    (∀ outputFile ioFails,
      export_to_csv [] outputFile ioFails = ⟨some "", []⟩)
  ∧ print_results [] = ["No papers found matching the criteria."] :=
  ⟨fun _ _ => rfl, rfl⟩

/-- C10: for a non-empty paper list and an output file path, CSV export
is a total function (never raises) whose return value is `none` both
when the underlying serialization/write succeeds and when it fails (the
exception is caught), so the caller cannot distinguish the two by return
value. -/
theorem claim_C10 (papers : List PaperRow) (f : String) (ioFails : Bool)
    (h : papers ≠ []) :
    (export_to_csv papers (some f) ioFails).ret = none := by
  match papers with
  | [] => exact absurd rfl h
  | p :: ps => cases ioFails <;> rfl

/-- Witness for C10: a concrete non-empty export, in the failing and the
succeeding case. -/
theorem claim_C10_witness :
    (export_to_csv [sampleRow1] (some "results.csv") true).ret = none
  ∧ (export_to_csv [sampleRow1] (some "results.csv") false).ret = none :=
  ⟨claim_C10 [sampleRow1] "results.csv" true (by decide),
   claim_C10 [sampleRow1] "results.csv" false (by decide)⟩

end PubmedPapers
